import Mathlib

/- Verification development for the canonical-syntax printer of the Dhall
configuration language (dhall_core/src/printer.rs).  The abstract syntax,
the precedence/phase engine (PrintPhase, needs_paren, fmt_phase) and the
leaf printers (labels, numerals, doubles, interpolated text, operators,
builtins, variables) are embedded as executable Lean functions.  Strings
written by the Rust formatter are modelled as a list of chunks (one chunk
per emitted piece); the rendered text is the concatenation of the chunks,
and the traversal also counts how many term nodes it enters. -/

namespace Dhall

/- Labels are identifier strings (`struct Label(String)` in the source). -/
abbrev Label := String

/-- Binary operators.
Modelled from the spec: the enum's declaration order (its derived `Ord`)
defines operator precedence, operators declared earlier binding less
tightly; the declaration of `BinOp` itself is outside the given sources,
so the order here follows the spec's operator symbol table
(`||`, `++`, `+`, `&&`, `/\`, `*`, `==`, `!=`, `//\\`, `?`, `//`, `#`). -/
inductive BinOp where
  | BoolOr
  | TextAppend
  | NaturalPlus
  | BoolAnd
  | Combine
  | NaturalTimes
  | BoolEQ
  | BoolNE
  | CombineTypes
  | ImportAlt
  | Prefer
  | ListAppend
deriving DecidableEq

/-- Declaration index of a `BinOp`, used to model the derived `Ord`. -/
def BinOp.idx : BinOp → Nat
  | .BoolOr => 0
  | .TextAppend => 1
  | .NaturalPlus => 2
  | .BoolAnd => 3
  | .Combine => 4
  | .NaturalTimes => 5
  | .BoolEQ => 6
  | .BoolNE => 7
  | .CombineTypes => 8
  | .ImportAlt => 9
  | .Prefer => 10
  | .ListAppend => 11

/-- `impl Display for BinOp`: the operator symbol table. -/
def opStr : BinOp → String
  | .BoolOr => "||"
  | .TextAppend => "++"
  | .NaturalPlus => "+"
  | .BoolAnd => "&&"
  | .Combine => "/\\"
  | .NaturalTimes => "*"
  | .BoolEQ => "=="
  | .BoolNE => "!="
  | .CombineTypes => "//\\\\"
  | .ImportAlt => "?"
  | .Prefer => "//"
  | .ListAppend => "#"

/-- Sorts. The source's `Const` enum (`Type`/`Kind`, printed via `Debug`)
is declared outside the given sources; `Type` is a Lean keyword, so the
constructors are lowercased. -/
inductive Const where
  | type
  | kind
deriving DecidableEq

/-- `impl Display for Const` (delegates to `Debug`). -/
def constStr : Const → String
  | .type => "Type"
  | .kind => "Kind"

/-- Built-in identifiers, exactly the variants enumerated by
`impl Display for Builtin` in the source. -/
inductive Builtin where
  | Bool
  | Natural
  | Integer
  | Double
  | Text
  | List
  | Optional
  | OptionalNone
  | NaturalBuild
  | NaturalFold
  | NaturalIsZero
  | NaturalEven
  | NaturalOdd
  | NaturalToInteger
  | NaturalShow
  | IntegerToDouble
  | IntegerShow
  | DoubleShow
  | ListBuild
  | ListFold
  | ListLength
  | ListHead
  | ListLast
  | ListIndexed
  | ListReverse
  | OptionalFold
  | OptionalBuild
  | TextShow
deriving DecidableEq

/-- `impl Display for Builtin`: the fixed string table. -/
def builtinStr : Builtin → String
  | .Bool => "Bool"
  | .Natural => "Natural"
  | .Integer => "Integer"
  | .Double => "Double"
  | .Text => "Text"
  | .List => "List"
  | .Optional => "Optional"
  | .OptionalNone => "None"
  | .NaturalBuild => "Natural/build"
  | .NaturalFold => "Natural/fold"
  | .NaturalIsZero => "Natural/isZero"
  | .NaturalEven => "Natural/even"
  | .NaturalOdd => "Natural/odd"
  | .NaturalToInteger => "Natural/toInteger"
  | .NaturalShow => "Natural/show"
  | .IntegerToDouble => "Integer/toDouble"
  | .IntegerShow => "Integer/show"
  | .DoubleShow => "Double/show"
  | .ListBuild => "List/build"
  | .ListFold => "List/fold"
  | .ListLength => "List/length"
  | .ListHead => "List/head"
  | .ListLast => "List/last"
  | .ListIndexed => "List/indexed"
  | .ListReverse => "List/reverse"
  | .OptionalFold => "Optional/fold"
  | .OptionalBuild => "Optional/build"
  | .TextShow => "Text/show"

/-- A variable reference `V(label, index)` from the source. -/
structure V where
  x : Label
  n : Nat
deriving DecidableEq

/-- The reserved keywords checked by `impl Display for Label`. -/
def isKeyword (s : String) : Bool :=
  match s with
  | "let" | "in" | "if" | "then" | "else" => true
  | _ => false

/-- `impl Display for Label`: a label is printed bare when all of its
characters are ASCII alphanumeric and it is not a keyword, and wrapped
in backticks otherwise.  (Lean's `Char.isAlphanum` is the ASCII check,
matching Rust's `char::is_ascii_alphanumeric`.) -/
def printLabel (s : Label) : String :=
  if s.data.all (fun c => c.isAlphanum) && !(isKeyword s) then s
  else "`" ++ s ++ "`"

/-- Double wrapper.  `impl Display for NaiveDouble` first compares the
`f64` against the infinities and NaN; any other value is formatted by
Rust's `f64` Display (a base-10 decimal string).  That standard-library
formatting step is outside the given sources, so a finite double is
represented here by the very string that formatter yields (`0.0 ↦ "0"`,
`1.0 ↦ "1"`, `0.5 ↦ "0.5"`, `1e30 ↦ "1e30"`, …). -/
inductive NaiveDouble where
  | infinity
  | negInfinity
  | nan
  | finite (s : String)
deriving DecidableEq

/-- `impl Display for NaiveDouble`: special tokens for the infinities and
NaN; for a finite value, the base string is kept when it already contains
an exponent marker or a decimal point and gets `.0` appended otherwise.
(Rust's `str::contains` is modelled on the string's character list.) -/
def fmtDouble : NaiveDouble → String
  | .infinity => "Infinity"
  | .negInfinity => "-Infinity"
  | .nan => "NaN"
  | .finite s =>
      if s.data.contains 'e' || s.data.contains '.' then s else s ++ ".0"

/-- The escape table from `impl Display for InterpolatedText`: the eight
special characters map to their escape sequences, every other character
passes through unchanged. -/
def escapeChar (c : Char) : String :=
  match c with
  | '\\' => "\\\\"
  | '\"' => "\\\""
  | '$' => "\\$"
  | '\x08' => "\\b"
  | '\x0C' => "\\f"
  | '\n' => "\\n"
  | '\r' => "\\r"
  | '\t' => "\\t"
  | c => String.singleton c

/-- Escaping of one literal chunk of interpolated text (the source walks
the chunk character by character). -/
def escapeText (a : String) : String :=
  String.join (a.data.map escapeChar)

/-- `impl Display for V`: the label, then `@n` when the index is nonzero. -/
def fmtVar (v : V) : String :=
  printLabel v.x ++ (if v.n = 0 then "" else "@" ++ Nat.repr v.n)

/-- The print phases, in the declaration order of the source's
`PrintPhase` enum (loosest first). -/
inductive PrintPhase where
  | Base
  | Operator
  | BinOp (op : BinOp)
  | App
  | Import
  | Primitive
deriving DecidableEq

/-- Rank of a phase constructor, modelling the variant order used by the
derived `Ord` on `PrintPhase`. -/
def PrintPhase.rank : PrintPhase → Nat
  | .Base => 0
  | .Operator => 1
  | .BinOp _ => 2
  | .App => 3
  | .Import => 4
  | .Primitive => 5

/-- The strict order on phases: variant order first, and between two
binary-operator phases the declaration order of the operators.  This is
exactly the derived `Ord` of the source's `PrintPhase`. -/
def PrintPhase.lt : PrintPhase → PrintPhase → Bool
  | .BinOp a, .BinOp b => a.idx < b.idx
  | p, q => p.rank < q.rank

mutual

/-- The term functor `ExprF` of the source, tied at the recursive
positions (`SubExpr`).  Vectors and `BTreeMap`s become the sibling list
types of this mutual block (a `BTreeMap` is kept in its iteration order),
`Option` subterms become `OptExpr`.  `Note` carries a source position the
printer matches as `_` and never reads, so the payload is omitted;
`Embed` holds an external value the printer only ever forwards to its own
`Display`, so it is represented by that rendered string. -/
inductive Expr where
  | Lam (a : Label) (b c : Expr)
  | BoolIf (a b c : Expr)
  | Pi (a : Label) (b c : Expr)
  | Let (a : Label) (b : OptExpr) (c d : Expr)
  | EmptyListLit (t : Expr)
  | NEListLit (es : ExprList)
  | OldOptionalLit (x : OptExpr) (t : Expr)
  | EmptyOptionalLit (t : Expr)
  | NEOptionalLit (e : Expr)
  | Merge (a b : Expr) (c : OptExpr)
  | Annot (a b : Expr)
  | BinOp (op : BinOp) (a b : Expr)
  | App (f : Expr) (args : ExprList)
  | Field (a : Expr) (b : Label)
  | Projection (e : Expr) (ls : List Label)
  | Var (a : V)
  | Const (k : Const)
  | Builtin (v : Builtin)
  | BoolLit (b : Bool)
  | NaturalLit (n : Nat)
  | IntegerLit (i : Int)
  | DoubleLit (d : NaiveDouble)
  | TextLit (t : InterpolatedText)
  | RecordType (m : RecordMap)
  | RecordLit (m : RecordMap)
  | UnionType (m : UnionMap)
  | UnionLit (a : Label) (b : Expr) (c : UnionMap)
  | UnionConstructor (x : Label) (m : UnionMap)
  | Embed (a : String)
  | Note (b : Expr)

/-- An optional subterm. -/
inductive OptExpr where
  | none
  | some (e : Expr)

/-- A vector of subterms. -/
inductive ExprList where
  | nil
  | cons (e : Expr) (es : ExprList)

/-- The entries of a record type or record literal, in iteration order. -/
inductive RecordMap where
  | nil
  | cons (k : Label) (v : Expr) (rest : RecordMap)

/-- The entries of a union type (each tag with an optional payload type). -/
inductive UnionMap where
  | nil
  | cons (k : Label) (v : OptExpr) (rest : UnionMap)

/-- One segment of interpolated text: a literal chunk or an embedded
subterm. -/
inductive InterpolatedTextContents where
  | Text (a : String)
  | Expr (e : Expr)

/-- Interpolated text: the sequence of segments the source iterates over. -/
inductive InterpolatedText where
  | nil
  | cons (x : InterpolatedTextContents) (rest : InterpolatedText)

end

/-- The `needs_paren` computation at the top of `fmt_phase`: the listed
looser-syntax shapes are parenthesized whenever the demanded phase is
tighter than `Base`; a binary operation whenever it is tighter than the
operator's own phase; an application whenever tighter than `App`; a field
or projection whenever tighter than `Import`; every other shape never. -/
def needsParen : Expr → PrintPhase → Bool
  | .Lam _ _ _, phase | .BoolIf _ _ _, phase | .Pi _ _ _, phase
  | .Let _ _ _ _, phase | .EmptyListLit _, phase | .NEListLit _, phase
  | .OldOptionalLit _ _, phase | .EmptyOptionalLit _, phase
  | .NEOptionalLit _, phase | .Merge _ _ _, phase
  | .Annot _ _, phase => PrintPhase.lt .Base phase
  | .BinOp op _ _, phase => PrintPhase.lt (.BinOp op) phase
  | .App _ _, phase => PrintPhase.lt .App phase
  | .Field _ _, phase | .Projection _ _, phase => PrintPhase.lt .Import phase
  | _, _ => false

/-- `fmt_list` over a plain label list (used by `Projection`). -/
def fmtLabels (ls : List Label) : String :=
  "\x7b " ++ String.intercalate ", " (ls.map printLabel) ++ " \x7d"

/-- The structural print of a dependent function type, given the already
rendered domain and codomain: the `Display` arm for `Pi` degrades to the
arrow form exactly when the bound variable is the unused-binder name. -/
def piChunks (a : Label) (B C : List String) : List String :=
  if a = "_" then B ++ " → " :: C
  else "∀(" :: printLabel a :: " : " :: B ++ ") → " :: C

/-- The phase the phase engine assigns to a dependent function type's
domain: `Operator` in the degenerate arrow form, the default `Base`
otherwise. -/
def piDomPhase (a : Label) : PrintPhase :=
  if a = "_" then .Operator else .Base

mutual

/-- The phase engine `fmt_phase` fused with the structural printer (the
`Display` instance for `ExprF`, which `fmt_phase` invokes on the
phase-annotated node).  The first component is the sequence of chunks
written to the formatter; the second counts the term nodes entered by
the traversal (one per `fmt_phase` activation).  Subterms not given an
explicit phase by the source default to `Base`. -/
def fmtP (e : Expr) (phase : PrintPhase) : List String × Nat :=
  let np := needsParen e phase
  let phase1 := if np then PrintPhase.Base else phase
  let r : List String × Nat :=
    match e with
    | .Lam a b c =>
        let B := fmtP b .Base
        let C := fmtP c .Base
        ("λ(" :: printLabel a :: " : " :: B.1 ++ ") → " :: C.1, 1 + B.2 + C.2)
    | .BoolIf a b c =>
        let A := fmtP a .Base
        let B := fmtP b .Base
        let C := fmtP c .Base
        ("if " :: A.1 ++ " then " :: B.1 ++ " else " :: C.1, 1 + A.2 + B.2 + C.2)
    | .Pi a b c =>
        let B := fmtP b (piDomPhase a)
        let C := fmtP c .Base
        (piChunks a B.1 C.1, 1 + B.2 + C.2)
    | .Let a b c d =>
        let B := fmtOptAnnot " : " b .Base
        let C := fmtP c .Base
        let D := fmtP d .Base
        ("let " :: printLabel a :: B.1 ++ " = " :: C.1 ++ " in " :: D.1,
          1 + B.2 + C.2 + D.2)
    | .EmptyListLit t =>
        let T := fmtP t .Import
        ("[] : List " :: T.1, 1 + T.2)
    | .NEListLit es =>
        let E := fmtExprList ", " true es .Base
        ("[" :: E.1 ++ ["]"], 1 + E.2)
    | .OldOptionalLit x t =>
        let T := fmtP t .Import
        match x with
        | .none => ("[] : Optional " :: T.1, 1 + T.2)
        | .some v =>
            let Vv := fmtP v .Base
            ("[" :: Vv.1 ++ "] : Optional " :: T.1, 1 + Vv.2 + T.2)
    | .EmptyOptionalLit t =>
        let T := fmtP t .Import
        ("None " :: T.1, 1 + T.2)
    | .NEOptionalLit e =>
        let E := fmtP e .Import
        ("Some " :: E.1, 1 + E.2)
    | .Merge a b c =>
        let A := fmtP a .Import
        let B := fmtP b .Import
        let C := fmtOptAnnot " : " c .App
        ("merge " :: A.1 ++ " " :: B.1 ++ C.1, 1 + A.2 + B.2 + C.2)
    | .Annot a b =>
        let A := fmtP a .Operator
        let B := fmtP b .Base
        (A.1 ++ " : " :: B.1, 1 + A.2 + B.2)
    | .BinOp op a b =>
        let A := fmtP a (.BinOp op)
        let B := fmtP b (.BinOp op)
        (A.1 ++ " " :: opStr op :: " " :: B.1, 1 + A.2 + B.2)
    | .App f args =>
        let F := fmtP f .Import
        let A := fmtExprList " " false args .Import
        (F.1 ++ A.1, 1 + F.2 + A.2)
    | .Field a b =>
        let A := fmtP a .Primitive
        (A.1 ++ [".", printLabel b], 1 + A.2)
    | .Projection e ls =>
        let E := fmtP e .Primitive
        (E.1 ++ [".", fmtLabels ls], 1 + E.2)
    | .Var v => ([fmtVar v], 1)
    | .Const k => ([constStr k], 1)
    | .Builtin v => ([builtinStr v], 1)
    | .BoolLit true => (["True"], 1)
    | .BoolLit false => (["False"], 1)
    | .NaturalLit n => ([Nat.repr n], 1)
    | .IntegerLit i =>
        if 0 ≤ i then (["+", Int.repr i], 1) else ([Int.repr i], 1)
    | .DoubleLit d => ([fmtDouble d], 1)
    | .TextLit t =>
        let T := fmtText t
        ("\"" :: T.1 ++ ["\""], 1 + T.2)
    | .RecordType m =>
        match m with
        | .nil => (["\x7b\x7d"], 1)
        | .cons k v rest =>
            let Vv := fmtP v .Base
            let R := fmtRecordTail " : " rest
            ("\x7b " :: printLabel k :: " : " :: Vv.1 ++ R.1 ++ [" \x7d"],
              1 + Vv.2 + R.2)
    | .RecordLit m =>
        match m with
        | .nil => (["\x7b=\x7d"], 1)
        | .cons k v rest =>
            let Vv := fmtP v .Base
            let R := fmtRecordTail " = " rest
            ("\x7b " :: printLabel k :: " = " :: Vv.1 ++ R.1 ++ [" \x7d"],
              1 + Vv.2 + R.2)
    | .UnionType m =>
        match m with
        | .nil => (["< ", " >"], 1)
        | .cons k v rest =>
            let Vv := fmtOptAnnot ": " v .Base
            let R := fmtUnionTail rest
            ("< " :: printLabel k :: Vv.1 ++ R.1 ++ [" >"], 1 + Vv.2 + R.2)
    | .UnionLit a b c =>
        let B := fmtP b .Base
        let C := fmtUnionTail c
        ("< " :: printLabel a :: " = " :: B.1 ++ C.1 ++ [" >"], 1 + B.2 + C.2)
    | .UnionConstructor x m =>
        match m with
        | .nil => (["< ", " >", ".", printLabel x], 1)
        | .cons k v rest =>
            let Vv := fmtOptAnnot ": " v .Base
            let R := fmtUnionTail rest
            ("< " :: printLabel k :: Vv.1 ++ R.1 ++ [" >", ".", printLabel x],
              1 + Vv.2 + R.2)
    | .Embed a => ([a], 1)
    | .Note b =>
        let B := fmtP b phase1
        (B.1, 1 + B.2)
  (if np then "(" :: r.1 ++ [")"] else r.1, r.2)

/-- An optional subterm preceded by a fixed separator when present
(the `if let Some(..)` annotations of `Let` and `Merge`, and the optional
payload types in unions). -/
def fmtOptAnnot (pre : String) (x : OptExpr) (phase : PrintPhase) :
    List String × Nat :=
  match x with
  | .none => ([], 0)
  | .some e =>
      let E := fmtP e phase
      (pre :: E.1, E.2)

/-- `fmt_list` over subterms: each element after the first is preceded by
the separator (`first` tells whether the next element is the first). -/
def fmtExprList (sep : String) (first : Bool) (es : ExprList)
    (phase : PrintPhase) : List String × Nat :=
  match es with
  | .nil => ([], 0)
  | .cons e rest =>
      let E := fmtP e phase
      let R := fmtExprList sep false rest phase
      ((if first then [] else [sep]) ++ E.1 ++ R.1, E.2 + R.2)

/-- The remaining record entries, each preceded by `", "`. -/
def fmtRecordTail (sep : String) (m : RecordMap) : List String × Nat :=
  match m with
  | .nil => ([], 0)
  | .cons k v rest =>
      let Vv := fmtP v .Base
      let R := fmtRecordTail sep rest
      (", " :: printLabel k :: sep :: Vv.1 ++ R.1, Vv.2 + R.2)

/-- The remaining union entries, each preceded by `" | "`. -/
def fmtUnionTail (m : UnionMap) : List String × Nat :=
  match m with
  | .nil => ([], 0)
  | .cons k v rest =>
      let Vv := fmtOptAnnot ": " v .Base
      let R := fmtUnionTail rest
      (" | " :: printLabel k :: Vv.1 ++ R.1, Vv.2 + R.2)

/-- The body of `impl Display for InterpolatedText`: literal chunks are
escaped, embedded subterms are rendered between `${ ` and ` }` at the
default `Base` phase with no escaping. -/
def fmtText (t : InterpolatedText) : List String × Nat :=
  match t with
  | .nil => ([], 0)
  | .cons (.Text a) rest =>
      let R := fmtText rest
      (escapeText a :: R.1, R.2)
  | .cons (.Expr e) rest =>
      let E := fmtP e .Base
      let R := fmtText rest
      ("$\x7b " :: E.1 ++ " \x7d" :: R.1, E.2 + R.2)

end

/-- Rendering a subterm under a demanded phase: the concatenation of the
chunks `fmt_phase` writes. -/
def renderAt (e : Expr) (phase : PrintPhase) : String :=
  String.join (fmtP e phase).1

/-- `impl Display for SubExpr`: rendering starts in the `Base` phase. -/
def render (e : Expr) : String :=
  renderAt e .Base

/-- The text written between the surrounding quotes of an interpolated
text literal. -/
def renderText (t : InterpolatedText) : String :=
  String.join (fmtText t).1

mutual

/-- The number of term nodes of an expression (one per constructor of the
`Expr` family that `fmt_phase` is dispatched on, including the nodes
embedded in interpolated text). -/
def numNodes : Expr → Nat
  | .Lam _ b c => 1 + numNodes b + numNodes c
  | .BoolIf a b c => 1 + numNodes a + numNodes b + numNodes c
  | .Pi _ b c => 1 + numNodes b + numNodes c
  | .Let _ b c d => 1 + numNodesOpt b + numNodes c + numNodes d
  | .EmptyListLit t => 1 + numNodes t
  | .NEListLit es => 1 + numNodesList es
  | .OldOptionalLit x t => 1 + numNodesOpt x + numNodes t
  | .EmptyOptionalLit t => 1 + numNodes t
  | .NEOptionalLit e => 1 + numNodes e
  | .Merge a b c => 1 + numNodes a + numNodes b + numNodesOpt c
  | .Annot a b => 1 + numNodes a + numNodes b
  | .BinOp _ a b => 1 + numNodes a + numNodes b
  | .App f args => 1 + numNodes f + numNodesList args
  | .Field a _ => 1 + numNodes a
  | .Projection e _ => 1 + numNodes e
  | .Var _ => 1
  | .Const _ => 1
  | .Builtin _ => 1
  | .BoolLit _ => 1
  | .NaturalLit _ => 1
  | .IntegerLit _ => 1
  | .DoubleLit _ => 1
  | .TextLit t => 1 + numNodesText t
  | .RecordType m => 1 + numNodesRecord m
  | .RecordLit m => 1 + numNodesRecord m
  | .UnionType m => 1 + numNodesUnion m
  | .UnionLit _ b c => 1 + numNodes b + numNodesUnion c
  | .UnionConstructor _ m => 1 + numNodesUnion m
  | .Embed _ => 1
  | .Note b => 1 + numNodes b

/-- Node count of an optional subterm. -/
def numNodesOpt : OptExpr → Nat
  | .none => 0
  | .some e => numNodes e

/-- Node count of a subterm vector. -/
def numNodesList : ExprList → Nat
  | .nil => 0
  | .cons e es => numNodes e + numNodesList es

/-- Node count of record entries. -/
def numNodesRecord : RecordMap → Nat
  | .nil => 0
  | .cons _ v rest => numNodes v + numNodesRecord rest

/-- Node count of union entries. -/
def numNodesUnion : UnionMap → Nat
  | .nil => 0
  | .cons _ v rest => numNodesOpt v + numNodesUnion rest

/-- Node count of interpolated-text segments. -/
def numNodesText : InterpolatedText → Nat
  | .nil => 0
  | .cons (.Text _) rest => numNodesText rest
  | .cons (.Expr e) rest => numNodes e + numNodesText rest

end

/-- The parenthesis wrapping performed by `fmt_phase` when `needs_paren`
holds: a `(` chunk before and a `)` chunk after the node's own chunks. -/
def parenWrap (np : Bool) (l : List String) : List String :=
  if np then "(" :: l ++ [")"] else l

/-- A fallible output sink, modelling the destination writer behind Rust's
`fmt::Formatter`: from a sink state, writing a chunk either yields the
next state or fails with a sink error.  `runWrites` performs a sequence of
writes in order, propagating the first failure exactly as the `?` operator
does in every arm of the printer. -/
def runWrites {σ ε : Type} (w : σ → String → Except ε σ) :
    List String → σ → Except ε σ
  | [], st => Except.ok st
  | s :: rest, st =>
      match w st s with
      | .error err => .error err
      | .ok st1 => runWrites w rest st1

/-- Rendering a term into a fallible sink: the printer's writes are issued
in order and the first sink failure aborts the render. -/
def renderM {σ ε : Type} (w : σ → String → Except ε σ) (e : Expr) (st : σ) :
    Except ε σ :=
  runWrites w (fmtP e .Base).1 st

/-- The parenthesization rule in the spec's words (with the binary-operator
clause read strictly): a lambda, let, conditional, dependent function type,
list/optional literal, merge or annotation demanded anything tighter than
`Base`; a binary operation demanded a strictly-tighter-precedence phase
than its own operator; an application demanded tighter than `App`; a field
or projection demanded tighter than `Import`. -/
def specNeedsParen : Expr → PrintPhase → Bool
  | .Lam _ _ _, phase | .BoolIf _ _ _, phase | .Pi _ _ _, phase
  | .Let _ _ _ _, phase | .EmptyListLit _, phase | .NEListLit _, phase
  | .OldOptionalLit _ _, phase | .EmptyOptionalLit _, phase
  | .NEOptionalLit _, phase | .Merge _ _ _, phase
  | .Annot _ _, phase => decide (phase ≠ PrintPhase.Base)
  | .BinOp op _ _, phase => PrintPhase.lt (.BinOp op) phase
  | .App _ _, phase => PrintPhase.lt .App phase
  | .Field _ _, phase | .Projection _ _, phase => PrintPhase.lt .Import phase
  | _, _ => false

/- String concatenation lemmas used to reason about joined chunk lists. -/

theorem join_nil : String.join [] = "" := rfl

theorem join_cons (s : String) (l : List String) :
    String.join (s :: l) = s ++ String.join l := by
  have aux : ∀ (l : List String) (t : String),
      l.foldl (fun r u => r ++ u) t = t ++ String.join l := by
    intro l
    induction l with
    | nil => intro t; simp [String.join]
    | cons a l ih =>
        intro t
        simp only [String.join, List.foldl] at *
        rw [ih (t ++ a), ih ("" ++ a), String.empty_append,
          String.append_assoc]
  simp only [String.join, List.foldl]
  rw [aux l ("" ++ s), String.empty_append]
  rfl

theorem join_append (l1 l2 : List String) :
    String.join (l1 ++ l2) = String.join l1 ++ String.join l2 := by
  induction l1 with
  | nil => simp [String.join]
  | cons a l ih =>
      rw [List.cons_append, join_cons, join_cons, ih, String.append_assoc]

/- Per-constructor unfolding equations for `fmtP`.  Each is definitional. -/

theorem fmtP_Lam (a : Label) (b c : Expr) (p : PrintPhase) :
    fmtP (.Lam a b c) p =
      (parenWrap (needsParen (.Lam a b c) p)
        ("λ(" :: printLabel a :: " : " :: (fmtP b .Base).1 ++
          ") → " :: (fmtP c .Base).1),
        1 + (fmtP b .Base).2 + (fmtP c .Base).2) := rfl

theorem fmtP_BoolIf (a b c : Expr) (p : PrintPhase) :
    fmtP (.BoolIf a b c) p =
      (parenWrap (needsParen (.BoolIf a b c) p)
        ("if " :: (fmtP a .Base).1 ++ " then " :: (fmtP b .Base).1 ++
          " else " :: (fmtP c .Base).1),
        1 + (fmtP a .Base).2 + (fmtP b .Base).2 + (fmtP c .Base).2) := rfl

theorem fmtP_Pi (a : Label) (b c : Expr) (p : PrintPhase) :
    fmtP (.Pi a b c) p =
      (parenWrap (needsParen (.Pi a b c) p)
        (piChunks a (fmtP b (piDomPhase a)).1 (fmtP c .Base).1),
        1 + (fmtP b (piDomPhase a)).2 + (fmtP c .Base).2) := rfl

theorem fmtP_Let (a : Label) (b : OptExpr) (c d : Expr) (p : PrintPhase) :
    fmtP (.Let a b c d) p =
      (parenWrap (needsParen (.Let a b c d) p)
        ("let " :: printLabel a :: (fmtOptAnnot " : " b .Base).1 ++
          " = " :: (fmtP c .Base).1 ++ " in " :: (fmtP d .Base).1),
        1 + (fmtOptAnnot " : " b .Base).2 + (fmtP c .Base).2 +
          (fmtP d .Base).2) := rfl

theorem fmtP_EmptyListLit (t : Expr) (p : PrintPhase) :
    fmtP (.EmptyListLit t) p =
      (parenWrap (needsParen (.EmptyListLit t) p)
        ("[] : List " :: (fmtP t .Import).1), 1 + (fmtP t .Import).2) := rfl

theorem fmtP_NEListLit (es : ExprList) (p : PrintPhase) :
    fmtP (.NEListLit es) p =
      (parenWrap (needsParen (.NEListLit es) p)
        ("[" :: (fmtExprList ", " true es .Base).1 ++ ["]"]),
        1 + (fmtExprList ", " true es .Base).2) := rfl

theorem fmtP_OldOptionalLit_none (t : Expr) (p : PrintPhase) :
    fmtP (.OldOptionalLit .none t) p =
      (parenWrap (needsParen (.OldOptionalLit .none t) p)
        ("[] : Optional " :: (fmtP t .Import).1), 1 + (fmtP t .Import).2) := rfl

theorem fmtP_OldOptionalLit_some (v t : Expr) (p : PrintPhase) :
    fmtP (.OldOptionalLit (.some v) t) p =
      (parenWrap (needsParen (.OldOptionalLit (.some v) t) p)
        ("[" :: (fmtP v .Base).1 ++ "] : Optional " :: (fmtP t .Import).1),
        1 + (fmtP v .Base).2 + (fmtP t .Import).2) := rfl

theorem fmtP_EmptyOptionalLit (t : Expr) (p : PrintPhase) :
    fmtP (.EmptyOptionalLit t) p =
      (parenWrap (needsParen (.EmptyOptionalLit t) p)
        ("None " :: (fmtP t .Import).1), 1 + (fmtP t .Import).2) := rfl

theorem fmtP_NEOptionalLit (e : Expr) (p : PrintPhase) :
    fmtP (.NEOptionalLit e) p =
      (parenWrap (needsParen (.NEOptionalLit e) p)
        ("Some " :: (fmtP e .Import).1), 1 + (fmtP e .Import).2) := rfl

theorem fmtP_Merge (a b : Expr) (c : OptExpr) (p : PrintPhase) :
    fmtP (.Merge a b c) p =
      (parenWrap (needsParen (.Merge a b c) p)
        ("merge " :: (fmtP a .Import).1 ++ " " :: (fmtP b .Import).1 ++
          (fmtOptAnnot " : " c .App).1),
        1 + (fmtP a .Import).2 + (fmtP b .Import).2 +
          (fmtOptAnnot " : " c .App).2) := rfl

theorem fmtP_Annot (a b : Expr) (p : PrintPhase) :
    fmtP (.Annot a b) p =
      (parenWrap (needsParen (.Annot a b) p)
        ((fmtP a .Operator).1 ++ " : " :: (fmtP b .Base).1),
        1 + (fmtP a .Operator).2 + (fmtP b .Base).2) := rfl

theorem fmtP_BinOp (op : BinOp) (a b : Expr) (p : PrintPhase) :
    fmtP (.BinOp op a b) p =
      (parenWrap (needsParen (.BinOp op a b) p)
        ((fmtP a (.BinOp op)).1 ++ " " :: opStr op :: " " ::
          (fmtP b (.BinOp op)).1),
        1 + (fmtP a (.BinOp op)).2 + (fmtP b (.BinOp op)).2) := rfl

theorem fmtP_App (f : Expr) (args : ExprList) (p : PrintPhase) :
    fmtP (.App f args) p =
      (parenWrap (needsParen (.App f args) p)
        ((fmtP f .Import).1 ++ (fmtExprList " " false args .Import).1),
        1 + (fmtP f .Import).2 + (fmtExprList " " false args .Import).2) := rfl

theorem fmtP_Field (a : Expr) (b : Label) (p : PrintPhase) :
    fmtP (.Field a b) p =
      (parenWrap (needsParen (.Field a b) p)
        ((fmtP a .Primitive).1 ++ [".", printLabel b]),
        1 + (fmtP a .Primitive).2) := rfl

theorem fmtP_Projection (e : Expr) (ls : List Label) (p : PrintPhase) :
    fmtP (.Projection e ls) p =
      (parenWrap (needsParen (.Projection e ls) p)
        ((fmtP e .Primitive).1 ++ [".", fmtLabels ls]),
        1 + (fmtP e .Primitive).2) := rfl

theorem fmtP_Var (v : V) (p : PrintPhase) :
    fmtP (.Var v) p = ([fmtVar v], 1) := rfl

theorem fmtP_Const (k : Const) (p : PrintPhase) :
    fmtP (.Const k) p = ([constStr k], 1) := rfl

theorem fmtP_Builtin (v : Builtin) (p : PrintPhase) :
    fmtP (.Builtin v) p = ([builtinStr v], 1) := rfl

theorem fmtP_BoolLit (b : Bool) (p : PrintPhase) :
    fmtP (.BoolLit b) p = ([cond b "True" "False"], 1) := by
  cases b <;> rfl

theorem fmtP_NaturalLit (n : Nat) (p : PrintPhase) :
    fmtP (.NaturalLit n) p = ([Nat.repr n], 1) := rfl

theorem fmtP_IntegerLit (i : Int) (p : PrintPhase) :
    fmtP (.IntegerLit i) p =
      if 0 ≤ i then (["+", Int.repr i], 1) else ([Int.repr i], 1) := rfl

theorem fmtP_DoubleLit (d : NaiveDouble) (p : PrintPhase) :
    fmtP (.DoubleLit d) p = ([fmtDouble d], 1) := rfl

theorem fmtP_TextLit (t : InterpolatedText) (p : PrintPhase) :
    fmtP (.TextLit t) p =
      ("\"" :: (fmtText t).1 ++ ["\""], 1 + (fmtText t).2) := rfl

theorem fmtP_RecordType_nil (p : PrintPhase) :
    fmtP (.RecordType .nil) p = (["\x7b\x7d"], 1) := rfl

theorem fmtP_RecordType_cons (k : Label) (v : Expr) (rest : RecordMap)
    (p : PrintPhase) :
    fmtP (.RecordType (.cons k v rest)) p =
      ("\x7b " :: printLabel k :: " : " :: (fmtP v .Base).1 ++
        (fmtRecordTail " : " rest).1 ++ [" \x7d"],
        1 + (fmtP v .Base).2 + (fmtRecordTail " : " rest).2) := rfl

theorem fmtP_RecordLit_nil (p : PrintPhase) :
    fmtP (.RecordLit .nil) p = (["\x7b=\x7d"], 1) := rfl

theorem fmtP_RecordLit_cons (k : Label) (v : Expr) (rest : RecordMap)
    (p : PrintPhase) :
    fmtP (.RecordLit (.cons k v rest)) p =
      ("\x7b " :: printLabel k :: " = " :: (fmtP v .Base).1 ++
        (fmtRecordTail " = " rest).1 ++ [" \x7d"],
        1 + (fmtP v .Base).2 + (fmtRecordTail " = " rest).2) := rfl

theorem fmtP_UnionType_nil (p : PrintPhase) :
    fmtP (.UnionType .nil) p = (["< ", " >"], 1) := rfl

theorem fmtP_UnionType_cons (k : Label) (v : OptExpr) (rest : UnionMap)
    (p : PrintPhase) :
    fmtP (.UnionType (.cons k v rest)) p =
      ("< " :: printLabel k :: (fmtOptAnnot ": " v .Base).1 ++
        (fmtUnionTail rest).1 ++ [" >"],
        1 + (fmtOptAnnot ": " v .Base).2 + (fmtUnionTail rest).2) := rfl

theorem fmtP_UnionLit (a : Label) (b : Expr) (c : UnionMap) (p : PrintPhase) :
    fmtP (.UnionLit a b c) p =
      ("< " :: printLabel a :: " = " :: (fmtP b .Base).1 ++
        (fmtUnionTail c).1 ++ [" >"],
        1 + (fmtP b .Base).2 + (fmtUnionTail c).2) := rfl

theorem fmtP_UnionConstructor_nil (x : Label) (p : PrintPhase) :
    fmtP (.UnionConstructor x .nil) p =
      (["< ", " >", ".", printLabel x], 1) := rfl

theorem fmtP_UnionConstructor_cons (x k : Label) (v : OptExpr)
    (rest : UnionMap) (p : PrintPhase) :
    fmtP (.UnionConstructor x (.cons k v rest)) p =
      ("< " :: printLabel k :: (fmtOptAnnot ": " v .Base).1 ++
        (fmtUnionTail rest).1 ++ [" >", ".", printLabel x],
        1 + (fmtOptAnnot ": " v .Base).2 + (fmtUnionTail rest).2) := rfl

theorem fmtP_Embed (a : String) (p : PrintPhase) :
    fmtP (.Embed a) p = ([a], 1) := rfl

theorem fmtP_Note (b : Expr) (p : PrintPhase) :
    fmtP (.Note b) p = ((fmtP b p).1, 1 + (fmtP b p).2) := rfl

/- Unfolding equations for the helper traversals. -/

theorem fmtOptAnnot_none (pre : String) (p : PrintPhase) :
    fmtOptAnnot pre .none p = ([], 0) := rfl

theorem fmtOptAnnot_some (pre : String) (e : Expr) (p : PrintPhase) :
    fmtOptAnnot pre (.some e) p = (pre :: (fmtP e p).1, (fmtP e p).2) := rfl

theorem fmtExprList_nil (sep : String) (first : Bool) (p : PrintPhase) :
    fmtExprList sep first .nil p = ([], 0) := rfl

theorem fmtExprList_cons (sep : String) (first : Bool) (e : Expr)
    (rest : ExprList) (p : PrintPhase) :
    fmtExprList sep first (.cons e rest) p =
      ((if first then [] else [sep]) ++ (fmtP e p).1 ++
        (fmtExprList sep false rest p).1,
        (fmtP e p).2 + (fmtExprList sep false rest p).2) := rfl

theorem fmtRecordTail_nil (sep : String) :
    fmtRecordTail sep .nil = ([], 0) := rfl

theorem fmtRecordTail_cons (sep : String) (k : Label) (v : Expr)
    (rest : RecordMap) :
    fmtRecordTail sep (.cons k v rest) =
      (", " :: printLabel k :: sep :: (fmtP v .Base).1 ++
        (fmtRecordTail sep rest).1,
        (fmtP v .Base).2 + (fmtRecordTail sep rest).2) := rfl

theorem fmtUnionTail_nil : fmtUnionTail .nil = ([], 0) := rfl

theorem fmtUnionTail_cons (k : Label) (v : OptExpr) (rest : UnionMap) :
    fmtUnionTail (.cons k v rest) =
      (" | " :: printLabel k :: (fmtOptAnnot ": " v .Base).1 ++
        (fmtUnionTail rest).1,
        (fmtOptAnnot ": " v .Base).2 + (fmtUnionTail rest).2) := rfl

theorem fmtText_nil : fmtText .nil = ([], 0) := rfl

theorem fmtText_text (a : String) (rest : InterpolatedText) :
    fmtText (.cons (.Text a) rest) =
      (escapeText a :: (fmtText rest).1, (fmtText rest).2) := rfl

theorem fmtText_expr (e : Expr) (rest : InterpolatedText) :
    fmtText (.cons (.Expr e) rest) =
      ("$\x7b " :: (fmtP e .Base).1 ++ " \x7d" :: (fmtText rest).1,
        (fmtP e .Base).2 + (fmtText rest).2) := rfl

/- Phase-order facts. -/

/-- `Base` is the bottom of the phase order, so no shape is parenthesized
when the demanded phase is `Base`. -/
theorem needsParen_Base (e : Expr) : needsParen e .Base = false := by
  cases e <;> rfl

/-- Being strictly above `Base` is the same as differing from `Base`. -/
theorem lt_Base_iff (p : PrintPhase) :
    PrintPhase.lt .Base p = decide (p ≠ PrintPhase.Base) := by
  cases p <;> rfl

/-- The `needs_paren` computation of the code agrees with the spec's
per-shape enumeration (strict reading of the binary-operator clause). -/
theorem needsParen_eq_spec (e : Expr) (p : PrintPhase) :
    needsParen e p = specNeedsParen e p := by
  cases e <;> cases p <;> rfl

/-- When `needs_paren` holds, the node is printed as `(`, its own
rendering under the `Base` phase, `)`; the visit count is unchanged. -/
theorem fmtP_paren (e : Expr) (p : PrintPhase) (h : needsParen e p = true) :
    fmtP e p = ("(" :: (fmtP e .Base).1 ++ [")"], (fmtP e .Base).2) := by
  cases e with
  | Lam a b c => simp [fmtP_Lam, h, needsParen_Base, parenWrap]
  | BoolIf a b c => simp [fmtP_BoolIf, h, needsParen_Base, parenWrap]
  | Pi a b c => simp [fmtP_Pi, h, needsParen_Base, parenWrap]
  | Let a b c d => simp [fmtP_Let, h, needsParen_Base, parenWrap]
  | EmptyListLit t => simp [fmtP_EmptyListLit, h, needsParen_Base, parenWrap]
  | NEListLit es => simp [fmtP_NEListLit, h, needsParen_Base, parenWrap]
  | OldOptionalLit x t =>
      cases x with
      | none =>
          simp [fmtP_OldOptionalLit_none, h, needsParen_Base, parenWrap]
      | some v =>
          simp [fmtP_OldOptionalLit_some, h, needsParen_Base, parenWrap]
  | EmptyOptionalLit t =>
      simp [fmtP_EmptyOptionalLit, h, needsParen_Base, parenWrap]
  | NEOptionalLit e => simp [fmtP_NEOptionalLit, h, needsParen_Base, parenWrap]
  | Merge a b c => simp [fmtP_Merge, h, needsParen_Base, parenWrap]
  | Annot a b => simp [fmtP_Annot, h, needsParen_Base, parenWrap]
  | BinOp op a b => simp [fmtP_BinOp, h, needsParen_Base, parenWrap]
  | App f args => simp [fmtP_App, h, needsParen_Base, parenWrap]
  | Field a b => simp [fmtP_Field, h, needsParen_Base, parenWrap]
  | Projection e ls => simp [fmtP_Projection, h, needsParen_Base, parenWrap]
  | Var v => simp [needsParen] at h
  | Const k => simp [needsParen] at h
  | Builtin v => simp [needsParen] at h
  | BoolLit b => simp [needsParen] at h
  | NaturalLit n => simp [needsParen] at h
  | IntegerLit i => simp [needsParen] at h
  | DoubleLit d => simp [needsParen] at h
  | TextLit t => simp [needsParen] at h
  | RecordType m => simp [needsParen] at h
  | RecordLit m => simp [needsParen] at h
  | UnionType m => simp [needsParen] at h
  | UnionLit a b c => simp [needsParen] at h
  | UnionConstructor x m => simp [needsParen] at h
  | Embed a => simp [needsParen] at h
  | Note b => simp [needsParen] at h

/-- When `needs_paren` does not hold, no parenthesis chunk is emitted at
the node: a position wrapper forwards the demanded phase to its child and
every other shape prints exactly as it would under `Base` (its children's
phases do not depend on the demanded phase). -/
theorem fmtP_noparen (e : Expr) (p : PrintPhase) :
    needsParen e p = false →
    (fmtP e p).1 =
      (match e with
        | .Note b => (fmtP b p).1
        | _ => (fmtP e .Base).1) := by
  intro h
  cases e with
  | Lam a b c => simp [fmtP_Lam, h, needsParen_Base, parenWrap]
  | BoolIf a b c => simp [fmtP_BoolIf, h, needsParen_Base, parenWrap]
  | Pi a b c => simp [fmtP_Pi, h, needsParen_Base, parenWrap]
  | Let a b c d => simp [fmtP_Let, h, needsParen_Base, parenWrap]
  | EmptyListLit t => simp [fmtP_EmptyListLit, h, needsParen_Base, parenWrap]
  | NEListLit es => simp [fmtP_NEListLit, h, needsParen_Base, parenWrap]
  | OldOptionalLit x t =>
      cases x with
      | none =>
          simp [fmtP_OldOptionalLit_none, h, needsParen_Base, parenWrap]
      | some v =>
          simp [fmtP_OldOptionalLit_some, h, needsParen_Base, parenWrap]
  | EmptyOptionalLit t =>
      simp [fmtP_EmptyOptionalLit, h, needsParen_Base, parenWrap]
  | NEOptionalLit e => simp [fmtP_NEOptionalLit, h, needsParen_Base, parenWrap]
  | Merge a b c => simp [fmtP_Merge, h, needsParen_Base, parenWrap]
  | Annot a b => simp [fmtP_Annot, h, needsParen_Base, parenWrap]
  | BinOp op a b => simp [fmtP_BinOp, h, needsParen_Base, parenWrap]
  | App f args => simp [fmtP_App, h, needsParen_Base, parenWrap]
  | Field a b => simp [fmtP_Field, h, needsParen_Base, parenWrap]
  | Projection e ls => simp [fmtP_Projection, h, needsParen_Base, parenWrap]
  | Var v => rfl
  | Const k => rfl
  | Builtin v => rfl
  | BoolLit b => cases b <;> rfl
  | NaturalLit n => rfl
  | IntegerLit i => rfl
  | DoubleLit d => rfl
  | TextLit t => rfl
  | RecordType m => cases m <;> rfl
  | RecordLit m => cases m <;> rfl
  | UnionType m => cases m <;> rfl
  | UnionLit a b c => rfl
  | UnionConstructor x m => cases m <;> rfl
  | Embed a => rfl
  | Note b => rfl

mutual

/-- The phase-engine traversal enters every term node exactly once: the
visit counter equals the node count, whatever phase is demanded. -/
theorem fmtP_count (e : Expr) (p : PrintPhase) : (fmtP e p).2 = numNodes e := by
  cases e with
  | Lam a b c =>
      simp [fmtP_Lam, numNodes, fmtP_count b .Base, fmtP_count c .Base]
  | BoolIf a b c =>
      simp [fmtP_BoolIf, numNodes, fmtP_count a .Base, fmtP_count b .Base,
        fmtP_count c .Base]
  | Pi a b c =>
      simp [fmtP_Pi, numNodes, fmtP_count b (piDomPhase a), fmtP_count c .Base]
  | Let a b c d =>
      simp [fmtP_Let, numNodes, fmtOptAnnot_count, fmtP_count c .Base,
        fmtP_count d .Base]
  | EmptyListLit t => simp [fmtP_EmptyListLit, numNodes, fmtP_count t .Import]
  | NEListLit es => simp [fmtP_NEListLit, numNodes, fmtExprList_count]
  | OldOptionalLit x t =>
      cases x with
      | none =>
          simp [fmtP_OldOptionalLit_none, numNodes, numNodesOpt,
            fmtP_count t .Import]
      | some v =>
          simp [fmtP_OldOptionalLit_some, numNodes, numNodesOpt,
            fmtP_count v .Base, fmtP_count t .Import]
  | EmptyOptionalLit t =>
      simp [fmtP_EmptyOptionalLit, numNodes, fmtP_count t .Import]
  | NEOptionalLit e => simp [fmtP_NEOptionalLit, numNodes, fmtP_count e .Import]
  | Merge a b c =>
      simp [fmtP_Merge, numNodes, fmtP_count a .Import, fmtP_count b .Import,
        fmtOptAnnot_count]
  | Annot a b =>
      simp [fmtP_Annot, numNodes, fmtP_count a .Operator, fmtP_count b .Base]
  | BinOp op a b =>
      simp [fmtP_BinOp, numNodes, fmtP_count a (.BinOp op),
        fmtP_count b (.BinOp op)]
  | App f args =>
      simp [fmtP_App, numNodes, fmtP_count f .Import, fmtExprList_count]
  | Field a b => simp [fmtP_Field, numNodes, fmtP_count a .Primitive]
  | Projection e ls => simp [fmtP_Projection, numNodes, fmtP_count e .Primitive]
  | Var v => simp [fmtP_Var, numNodes]
  | Const k => simp [fmtP_Const, numNodes]
  | Builtin v => simp [fmtP_Builtin, numNodes]
  | BoolLit b => simp [fmtP_BoolLit, numNodes]
  | NaturalLit n => simp [fmtP_NaturalLit, numNodes]
  | IntegerLit i =>
      by_cases h : (0:Int) ≤ i <;> simp [fmtP_IntegerLit, numNodes, h]
  | DoubleLit d => simp [fmtP_DoubleLit, numNodes]
  | TextLit t => simp [fmtP_TextLit, numNodes, fmtText_count]
  | RecordType m =>
      cases m with
      | nil => simp [fmtP_RecordType_nil, numNodes, numNodesRecord]
      | cons k v rest =>
          simp [fmtP_RecordType_cons, numNodes, numNodesRecord,
            fmtP_count v .Base, fmtRecordTail_count, Nat.add_assoc]
  | RecordLit m =>
      cases m with
      | nil => simp [fmtP_RecordLit_nil, numNodes, numNodesRecord]
      | cons k v rest =>
          simp [fmtP_RecordLit_cons, numNodes, numNodesRecord,
            fmtP_count v .Base, fmtRecordTail_count, Nat.add_assoc]
  | UnionType m =>
      cases m with
      | nil => simp [fmtP_UnionType_nil, numNodes, numNodesUnion]
      | cons k v rest =>
          simp [fmtP_UnionType_cons, numNodes, numNodesUnion,
            fmtOptAnnot_count, fmtUnionTail_count, Nat.add_assoc]
  | UnionLit a b c =>
      simp [fmtP_UnionLit, numNodes, fmtP_count b .Base, fmtUnionTail_count]
  | UnionConstructor x m =>
      cases m with
      | nil => simp [fmtP_UnionConstructor_nil, numNodes, numNodesUnion]
      | cons k v rest =>
          simp [fmtP_UnionConstructor_cons, numNodes, numNodesUnion,
            fmtOptAnnot_count, fmtUnionTail_count, Nat.add_assoc]
  | Embed a => simp [fmtP_Embed, numNodes]
  | Note b => simp [fmtP_Note, numNodes, fmtP_count b]

/-- Visit counter of an optional annotation. -/
theorem fmtOptAnnot_count (pre : String) (x : OptExpr) (p : PrintPhase) :
    (fmtOptAnnot pre x p).2 = numNodesOpt x := by
  cases x with
  | none => simp [fmtOptAnnot_none, numNodesOpt]
  | some e => simp [fmtOptAnnot_some, numNodesOpt, fmtP_count e p]

/-- Visit counter of a subterm vector. -/
theorem fmtExprList_count (sep : String) (first : Bool) (es : ExprList)
    (p : PrintPhase) : (fmtExprList sep first es p).2 = numNodesList es := by
  cases es with
  | nil => simp [fmtExprList_nil, numNodesList]
  | cons e rest =>
      simp [fmtExprList_cons, numNodesList, fmtP_count e p,
        fmtExprList_count sep false rest p]

/-- Visit counter of the trailing record entries. -/
theorem fmtRecordTail_count (sep : String) (m : RecordMap) :
    (fmtRecordTail sep m).2 = numNodesRecord m := by
  cases m with
  | nil => simp [fmtRecordTail_nil, numNodesRecord]
  | cons k v rest =>
      simp [fmtRecordTail_cons, numNodesRecord, fmtP_count v .Base,
        fmtRecordTail_count sep rest]

/-- Visit counter of the trailing union entries. -/
theorem fmtUnionTail_count (m : UnionMap) :
    (fmtUnionTail m).2 = numNodesUnion m := by
  cases m with
  | nil => simp [fmtUnionTail_nil, numNodesUnion]
  | cons k v rest =>
      simp [fmtUnionTail_cons, numNodesUnion, fmtOptAnnot_count,
        fmtUnionTail_count rest]

/-- Visit counter of interpolated-text segments. -/
theorem fmtText_count (t : InterpolatedText) :
    (fmtText t).2 = numNodesText t := by
  cases t with
  | nil => simp [fmtText_nil, numNodesText]
  | cons x rest =>
      cases x with
      | Text a => simp [fmtText_text, numNodesText, fmtText_count rest]
      | Expr e =>
          simp [fmtText_expr, numNodesText, fmtP_count e .Base,
            fmtText_count rest]

end

/- Sink lemmas for the error-propagation analysis. -/

/-- Against a sink that always accepts chunks by concatenating them, a
sequence of writes succeeds and appends the join of the chunks. -/
theorem runWrites_concat {ε : Type} (l : List String) (st : String) :
    runWrites (ε := ε) (fun acc s => Except.ok (acc ++ s)) l st =
      Except.ok (st ++ String.join l) := by
  induction l generalizing st with
  | nil => simp [runWrites, String.join]
  | cons a rest ih =>
      simp [runWrites, ih, join_cons, String.append_assoc]

/-- If a sequence of writes fails, the reported error is one that the
sink itself returned for some write. -/
theorem runWrites_error {σ ε : Type} (w : σ → String → Except ε σ)
    (l : List String) (st : σ) (err : ε)
    (h : runWrites w l st = Except.error err) :
    ∃ st1 s, w st1 s = Except.error err := by
  induction l generalizing st with
  | nil => simp [runWrites] at h
  | cons a rest ih =>
      simp only [runWrites] at h
      cases hw : w st a with
      | error e2 =>
          rw [hw] at h
          simp only [Except.error.injEq] at h
          exact ⟨st, a, by rw [hw, h]⟩
      | ok st1 =>
          rw [hw] at h
          exact ih st1 h

/-- If the sink never fails, a sequence of writes never fails. -/
theorem runWrites_total {σ ε : Type} (w : σ → String → Except ε σ)
    (hw : ∀ st s, ∃ st2, w st s = Except.ok st2) (l : List String) (st : σ) :
    ∃ st2, runWrites w l st = Except.ok st2 := by
  induction l generalizing st with
  | nil => exact ⟨st, rfl⟩
  | cons a rest ih =>
      obtain ⟨st1, h1⟩ := hw st a
      obtain ⟨st2, h2⟩ := ih st1
      exact ⟨st2, by simp [runWrites, h1, h2]⟩

/- Decimal-digit lemmas for natural-number rendering. -/

/-- The digit characters of values below ten are decimal digits. -/
theorem digitChar_isDigit (m : Nat) (h : m < 10) :
    (Nat.digitChar m).isDigit = true := by
  interval_cases m <;> decide

/-- Every character produced by base-ten digit accumulation is a decimal
digit. -/
theorem toDigitsCore_digits (fuel : Nat) :
    ∀ (n : Nat) (acc : List Char), (∀ c ∈ acc, c.isDigit = true) →
      ∀ c ∈ Nat.toDigitsCore 10 fuel n acc, c.isDigit = true := by
  induction fuel with
  | zero => intro n acc hacc; simpa [Nat.toDigitsCore] using hacc
  | succ fuel ih =>
      intro n acc hacc c hc
      rw [Nat.toDigitsCore] at hc
      by_cases h0 : n / 10 = 0
      · rw [if_pos h0] at hc
        rcases List.mem_cons.mp hc with h | h
        · subst h; exact digitChar_isDigit _ (Nat.mod_lt _ (by omega))
        · exact hacc _ h
      · rw [if_neg h0] at hc
        refine ih (n / 10) (Nat.digitChar (n % 10) :: acc) ?_ c hc
        intro d hd
        rcases List.mem_cons.mp hd with h | h
        · subst h; exact digitChar_isDigit _ (Nat.mod_lt _ (by omega))
        · exact hacc _ h

/-- Every character of `Nat.repr` is a decimal digit. -/
theorem repr_digits (n : Nat) :
    ∀ c ∈ (Nat.repr n).data, c.isDigit = true := by
  intro c hc
  exact toDigitsCore_digits (n + 1) n [] (by simp) c hc

/-- The keyword test recognizes exactly the five reserved words. -/
theorem isKeyword_iff (s : String) :
    isKeyword s = true ↔
      (s = "let" ∨ s = "in" ∨ s = "if" ∨ s = "then" ∨ s = "else") := by
  constructor
  · intro h
    unfold isKeyword at h
    split at h <;> simp_all
  · rintro (rfl | rfl | rfl | rfl | rfl) <;> rfl

/- The claims. -/

/-- C1: printing a left-nested and a right-nested chain of the same binary
operator yields the same parenthesis-free string, for every operator and
all operands: the printer gives both operands the operator's own phase, so
the right-nested term loses its grouping and the two printed strings are
never distinct (`x + (y + z)` and `(x + y) + z` both print `x + y + z`). -/
theorem claim_C1 (op : BinOp) (a b c : Expr) :
    render (.BinOp op (.BinOp op a b) c) =
      render (.BinOp op a (.BinOp op b c))
    ∧ render (.BinOp .NaturalPlus
        (.BinOp .NaturalPlus (.Var ⟨"x", 0⟩) (.Var ⟨"y", 0⟩))
        (.Var ⟨"z", 0⟩)) = "x + y + z"
    ∧ render (.BinOp .NaturalPlus (.Var ⟨"x", 0⟩)
        (.BinOp .NaturalPlus (.Var ⟨"y", 0⟩) (.Var ⟨"z", 0⟩))) =
      "x + y + z" := by
  have hl : PrintPhase.lt (.BinOp op) (.BinOp op) = false := by
    simp [PrintPhase.lt]
  have hnp1 : needsParen (.BinOp op a b) (.BinOp op) = false := by
    simp [needsParen, hl]
  have hnp2 : needsParen (.BinOp op b c) (.BinOp op) = false := by
    simp [needsParen, hl]
  refine ⟨?_, by decide, by decide⟩
  simp [render, renderAt, fmtP_BinOp, needsParen_Base, hnp1, hnp2, parenWrap,
    List.append_assoc]

/-- C2 (amended: the binary-operator clause reads "strictly tighter", not
"tighter-or-equal"): the code's parenthesization test agrees with the
spec's per-shape enumeration; when it holds the node prints as `(`, its
own rendering under the `Base` phase, `)`; when it does not hold no
parenthesis is emitted at that node — a position wrapper forwards the
phase to its child and every other shape prints as it would under
`Base`. -/
theorem claim_C2 (e : Expr) (p : PrintPhase) :
    needsParen e p = specNeedsParen e p
    ∧ (needsParen e p = true →
        fmtP e p = ("(" :: (fmtP e .Base).1 ++ [")"], (fmtP e .Base).2))
    ∧ (needsParen e p = false →
        (fmtP e p).1 = (match e with
          | .Note b => (fmtP b p).1
          | _ => (fmtP e .Base).1)) :=
  ⟨needsParen_eq_spec e p, fmtP_paren e p, fmtP_noparen e p⟩

/-- C2, counterexample to the claim as stated: a binary operation whose
demanded phase equals its own operator's phase ("tighter-or-equal") is
not parenthesized by the code. -/
theorem claim_C2_counterexample :
    needsParen (.BinOp .BoolOr (.Var ⟨"x", 0⟩) (.Var ⟨"y", 0⟩))
        (.BinOp .BoolOr) = false
    ∧ renderAt (.BinOp .BoolOr (.Var ⟨"x", 0⟩) (.Var ⟨"y", 0⟩))
        (.BinOp .BoolOr) = "x || y" := by
  exact ⟨rfl, by decide⟩

/-- C2, witness: a lambda demanded at the `App` phase is parenthesized. -/
theorem claim_C2_witness :
    needsParen (.Lam "x" (.Var ⟨"t", 0⟩) (.Var ⟨"x", 0⟩)) .App = true
    ∧ fmtP (.Lam "x" (.Var ⟨"t", 0⟩) (.Var ⟨"x", 0⟩)) .App =
        ("(" :: (fmtP (.Lam "x" (.Var ⟨"t", 0⟩) (.Var ⟨"x", 0⟩)) .Base).1 ++
          [")"],
         (fmtP (.Lam "x" (.Var ⟨"t", 0⟩) (.Var ⟨"x", 0⟩)) .Base).2) :=
  ⟨by decide,
   (claim_C2 (.Lam "x" (.Var ⟨"t", 0⟩) (.Var ⟨"x", 0⟩)) .App).2.1 (by decide)⟩

/-- C3: a dependent function type with the unused-binder name prints in
arrow form with its domain under the `Operator` phase; with any other
bound variable it prints in the `∀(x : T) → body` form. -/
theorem claim_C3 (x : Label) (b c : Expr) :
    renderAt (.Pi "_" b c) .Base =
      renderAt b .Operator ++ " → " ++ renderAt c .Base
    ∧ (x ≠ "_" → renderAt (.Pi x b c) .Base =
        "∀(" ++ printLabel x ++ " : " ++ renderAt b .Base ++ ") → " ++
          renderAt c .Base) := by
  constructor
  · simp [renderAt, fmtP_Pi, needsParen_Base, parenWrap, piDomPhase, piChunks,
      join_append, join_cons, String.append_assoc]
  · intro h
    simp [renderAt, fmtP_Pi, needsParen_Base, parenWrap, piDomPhase, piChunks,
      h, join_append, join_cons, String.append_assoc]

/-- C3, witness: the arrow form at `x = "a"`. -/
theorem claim_C3_witness :
    renderAt (.Pi "a" (.Var ⟨"t", 0⟩) (.Var ⟨"u", 0⟩)) .Base =
      "∀(a : t) → u" := by
  have h := (claim_C3 "a" (.Var ⟨"t", 0⟩) (.Var ⟨"u", 0⟩)).2 (by decide)
  rw [h]
  decide

/-- C4: a label prints bare exactly when it is ASCII-alphanumeric
throughout and none of the five keywords; otherwise it prints wrapped in
backticks. -/
theorem claim_C4 (s : Label) :
    (printLabel s = s ↔
      ((∀ c ∈ s.data, c.isAlphanum = true) ∧ s ≠ "let" ∧ s ≠ "in" ∧
        s ≠ "if" ∧ s ≠ "then" ∧ s ≠ "else"))
    ∧ (printLabel s = s ∨ printLabel s = "`" ++ s ++ "`") := by
  by_cases h : (s.data.all (fun c => c.isAlphanum) && !(isKeyword s)) = true
  · have hp : printLabel s = s := by rw [printLabel, if_pos h]
    have hh := h
    rw [Bool.and_eq_true] at hh
    obtain ⟨h1, h2⟩ := hh
    have hkw : isKeyword s = false := by
      cases hk : isKeyword s
      · rfl
      · rw [hk] at h2; exact absurd h2 (by decide)
    have hnd : ¬(s = "let" ∨ s = "in" ∨ s = "if" ∨ s = "then" ∨ s = "else") := by
      intro hd
      exact absurd ((isKeyword_iff s).mpr hd) (by simp [hkw])
    push_neg at hnd
    obtain ⟨k1, k2, k3, k4, k5⟩ := hnd
    exact ⟨⟨fun _ => ⟨List.all_eq_true.mp h1, k1, k2, k3, k4, k5⟩,
      fun _ => hp⟩, .inl hp⟩
  · have hp : printLabel s = "`" ++ s ++ "`" := by rw [printLabel, if_neg h]
    have hne : printLabel s ≠ s := by
      rw [hp]
      intro heq
      have hlen := congrArg String.length heq
      rw [String.length_append, String.length_append] at hlen
      have : ("`" : String).length = 1 := rfl
      omega
    refine ⟨⟨fun hq => absurd hq hne, fun hcond => ?_⟩, .inr hp⟩
    exfalso
    apply h
    obtain ⟨hall, k1, k2, k3, k4, k5⟩ := hcond
    have hkw : isKeyword s = false := by
      cases hk : isKeyword s
      · rfl
      · rcases (isKeyword_iff s).mp hk with hh | hh | hh | hh | hh <;> tauto
    rw [Bool.and_eq_true]
    exact ⟨List.all_eq_true.mpr hall, by rw [hkw]; rfl⟩

/-- C4, witness: `if` is backtick-quoted, `foo2` is bare, `foo-bar` is
backtick-quoted. -/
theorem claim_C4_witness :
    printLabel "if" = "`if`" ∧ printLabel "foo2" = "foo2" ∧
    printLabel "foo-bar" = "`foo-bar`" := by
  refine ⟨?_, (claim_C4 "foo2").1.mpr (by decide), ?_⟩
  · rcases (claim_C4 "if").2 with h | h
    · exact absurd ((claim_C4 "if").1.mp h) (by decide)
    · exact h
  · rcases (claim_C4 "foo-bar").2 with h | h
    · exact absurd ((claim_C4 "foo-bar").1.mp h) (by decide)
    · exact h

/-- C5: the infinities and NaN render as their literal tokens; every
finite double renders with a decimal point or an exponent marker present
(the `.0` suffix is appended whenever the base decimal string has
neither); `0.0` renders `"0.0"` and `1.0` renders `"1.0"` (Rust's `f64`
formatter yields the base strings `"0"` and `"1"` for them). -/
theorem claim_C5 :
    fmtDouble .infinity = "Infinity" ∧ fmtDouble .negInfinity = "-Infinity" ∧
    fmtDouble .nan = "NaN" ∧
    (∀ s : String, '.' ∈ (fmtDouble (.finite s)).data ∨
      'e' ∈ (fmtDouble (.finite s)).data) ∧
    (∀ d : NaiveDouble, render (.DoubleLit d) = fmtDouble d) ∧
    fmtDouble (.finite "0") = "0.0" ∧ fmtDouble (.finite "1") = "1.0" := by
  refine ⟨rfl, rfl, rfl, ?_, ?_, by decide, by decide⟩
  · intro s
    by_cases hc : (s.data.contains 'e' || s.data.contains '.') = true
    · have hs : fmtDouble (.finite s) = s := by
        simp only [fmtDouble]
        rw [if_pos hc]
      rw [hs]
      rw [Bool.or_eq_true] at hc
      rcases hc with h | h
      · exact .inr (List.elem_iff.mp h)
      · exact .inl (List.elem_iff.mp h)
    · have hs : fmtDouble (.finite s) = s ++ ".0" := by
        simp only [fmtDouble]
        rw [if_neg hc]
      rw [hs]
      left
      have hd : (s ++ ".0").data = s.data ++ (".0" : String).data := rfl
      rw [hd]
      exact List.mem_append.mpr (.inr (by decide))
  · intro d
    simp [render, renderAt, fmtP_DoubleLit, join_cons, join_nil,
      String.append_empty]

/-- C6: an integer literal carries an explicit `+` exactly when
non-negative and the usual `-` when negative; a natural literal renders
as bare decimal digits with no sign. -/
theorem claim_C6 (i : Int) (n : Nat) :
    (0 ≤ i → render (.IntegerLit i) = "+" ++ Int.repr i)
    ∧ (i < 0 → render (.IntegerLit i) = Int.repr i ∧
        render (.IntegerLit i) = "-" ++ Nat.repr i.natAbs)
    ∧ render (.NaturalLit n) = Nat.repr n
    ∧ (∀ c ∈ (render (.NaturalLit n)).data, c.isDigit = true) := by
  have hnat : render (.NaturalLit n) = Nat.repr n := by
    simp [render, renderAt, fmtP_NaturalLit, join_cons, join_nil,
      String.append_empty]
  refine ⟨?_, ?_, hnat, ?_⟩
  · intro h
    simp [render, renderAt, fmtP_IntegerLit, if_pos h, join_cons, join_nil,
      String.append_empty, String.append_assoc]
  · intro h
    have hn : ¬ (0:Int) ≤ i := by omega
    have hr : render (.IntegerLit i) = Int.repr i := by
      simp [render, renderAt, fmtP_IntegerLit, if_neg hn, join_cons, join_nil,
        String.append_empty]
    refine ⟨hr, ?_⟩
    rw [hr]
    cases i with
    | ofNat k => exact absurd h (Int.not_lt.mpr (Int.ofNat_zero_le k))
    | negSucc m => rfl
  · intro c hc
    rw [hnat] at hc
    exact repr_digits n c hc

/-- C6, witness: integer `5` prints `"+5"`, integer `-5` prints `"-5"`,
natural `5` prints `"5"`. -/
theorem claim_C6_witness :
    render (.IntegerLit 5) = "+5" ∧ render (.IntegerLit (-5)) = "-5" ∧
    render (.NaturalLit 5) = "5" := by
  refine ⟨?_, ?_, (claim_C6 5 5).2.2.1⟩
  · have h := (claim_C6 5 5).1 (by decide)
    rw [h]; decide
  · have h := ((claim_C6 (-5) 5).2.1 (by decide)).1
    rw [h]; decide

/-- C7: interpolated text prints between double quotes; each literal
chunk is escaped character by character with the eight-entry escape
table, every other character passing through unchanged; each embedded
term prints between `${ ` and ` }` with no escaping applied to it. -/
theorem claim_C7 (a : String) (e : Expr) (rest : InterpolatedText)
    (c : Char) :
    (∀ (t : InterpolatedText) (p : PrintPhase),
      renderAt (.TextLit t) p = "\"" ++ renderText t ++ "\"")
    ∧ renderText .nil = ""
    ∧ renderText (.cons (.Text a) rest) = escapeText a ++ renderText rest
    ∧ renderText (.cons (.Expr e) rest) =
        "$\x7b " ++ render e ++ " \x7d" ++ renderText rest
    ∧ escapeText a = String.join (a.data.map escapeChar)
    ∧ escapeChar '\\' = "\\\\" ∧ escapeChar '\"' = "\\\"" ∧
      escapeChar '$' = "\\$" ∧ escapeChar '\x08' = "\\b" ∧
      escapeChar '\x0C' = "\\f" ∧ escapeChar '\n' = "\\n" ∧
      escapeChar '\r' = "\\r" ∧ escapeChar '\t' = "\\t"
    ∧ (c ∉ (['\\', '\"', '$', '\x08', '\x0C', '\n', '\r', '\t'] : List Char) →
        escapeChar c = String.singleton c) := by
  refine ⟨?_, rfl, ?_, ?_, rfl, rfl, rfl, rfl, rfl, rfl, rfl, rfl, rfl, ?_⟩
  · intro t p
    simp [renderAt, fmtP_TextLit, renderText, join_cons, join_nil,
      join_append, String.append_empty, String.append_assoc]
  · simp [renderText, fmtText_text, join_cons]
  · simp [renderText, fmtText_expr, render, renderAt, join_cons, join_append,
      String.append_assoc]
  · intro h
    simp only [List.mem_cons, List.not_mem_nil, or_false] at h
    push_neg at h
    obtain ⟨h1, h2, h3, h4, h5, h6, h7, h8⟩ := h
    unfold escapeChar
    split <;> simp_all

/-- C7, witness: an ordinary character passes through unchanged. -/
theorem claim_C7_witness :
    escapeChar 'a' = "a" := by
  have h := (claim_C7 "" (.Var ⟨"x", 0⟩) .nil 'a').2.2.2.2.2.2.2.2.2.2.2.2.2
  exact h (by decide)

/-- C8: the printer originates no error — with a sink that never fails
rendering never fails and produces exactly the pure rendering appended to
the sink state; when rendering fails the reported error is one the sink
itself returned for some write, and a failing write aborts the run at
once with that error propagated unchanged. -/
theorem claim_C8 {σ ε : Type} (w : σ → String → Except ε σ) (e : Expr)
    (st : σ) :
    ((∀ st1 s, ∃ st2, w st1 s = Except.ok st2) →
      ∃ st2, renderM w e st = Except.ok st2)
    ∧ (∀ err, renderM w e st = Except.error err →
        ∃ st1 s, w st1 s = Except.error err)
    ∧ (∀ (s : String) (l : List String) (st1 : σ) (err : ε),
        w st1 s = Except.error err →
          runWrites w (s :: l) st1 = Except.error err)
    ∧ (∀ acc : String,
        renderM (ε := ε) (fun acc1 s => Except.ok (acc1 ++ s)) e acc =
          Except.ok (acc ++ render e)) := by
  refine ⟨fun hw => runWrites_total w hw _ st,
    fun err h => runWrites_error w _ st err h, ?_, ?_⟩
  · intro s l st1 err h
    simp [runWrites, h]
  · intro acc
    rw [renderM, runWrites_concat]
    rfl

/-- C8, witness: rendering a variable into the concatenating sink
succeeds and yields its rendering. -/
theorem claim_C8_witness :
    (∃ st2, renderM (ε := Unit) (fun acc1 s => Except.ok (acc1 ++ s))
      (.Var ⟨"x", 0⟩) "" = Except.ok st2)
    ∧ renderM (ε := Unit) (fun acc1 s => Except.ok (acc1 ++ s))
        (.Var ⟨"x", 0⟩) "" = Except.ok "x" := by
  refine ⟨(claim_C8 (fun acc1 s => Except.ok (acc1 ++ s))
    (Expr.Var ⟨"x", 0⟩) "").1 (fun st1 s => ⟨st1 ++ s, rfl⟩), ?_⟩
  have h := (claim_C8 (ε := Unit) (fun acc1 s => Except.ok (acc1 ++ s))
    (Expr.Var ⟨"x", 0⟩) "").2.2.2 ""
  have hx : ("" : String) ++ render (.Var ⟨"x", 0⟩) = "x" := by decide
  rw [h, hx]

/-- C9: rendering is a total structurally recursive traversal whose
visit counter equals the term's node count in every phase: each node is
entered exactly once. -/
theorem claim_C9 (e : Expr) (p : PrintPhase) : (fmtP e p).2 = numNodes e :=
  fmtP_count e p

/-- C10: a variable reference prints as its (possibly quoted) label when
the de Bruijn index is zero, and with an `@index` suffix otherwise. -/
theorem claim_C10 (x : Label) (n : Nat) :
    render (.Var ⟨x, 0⟩) = printLabel x
    ∧ (n ≠ 0 → render (.Var ⟨x, n⟩) = printLabel x ++ "@" ++ Nat.repr n) := by
  constructor
  · simp [render, renderAt, fmtP_Var, fmtVar, join_cons, join_nil,
      String.append_empty]
  · intro h
    simp [render, renderAt, fmtP_Var, fmtVar, h, join_cons, join_nil,
      String.append_empty, String.append_assoc]

/-- C10, witness: `x@2` for index two, `y` for index zero. -/
theorem claim_C10_witness :
    render (.Var ⟨"x", 2⟩) = "x@2" ∧ render (.Var ⟨"y", 0⟩) = "y" := by
  refine ⟨?_, (claim_C10 "y" 0).1⟩
  have h := (claim_C10 "x" 2).2 (by decide)
  rw [h]; decide

end Dhall

